import Mathlib

/-!
Verification development for the tyler agent runtime.

Shallow embedding of the core data model and operations:
  * `Message`, `Thread`, `Thread.add_message`  — src/tyler/models/thread.py, message.py
  * `validate_role`                            — src/tyler/models/message.py
  * `Agent.go` and its iteration loop          — src/tyler/models/agent.py
  * `Agent.process_streaming_chunks`           — src/tyler/models/agent.py
  * `SQLBackend.save` / `get` record logic     — src/tyler/database/storage_backend.py
  * `AgentRunner.run_agent`                    — src/tyler/utils/agent_runner.py

Time is modelled abstractly: wall-clock reads are passed in as a `now : Nat`
parameter, and per-call timing metrics are not modelled.  Python dicts whose
contents the claims never inspect structurally are modelled as association
lists `List (String × String)`.
-/

/-- Message roles.  The Python code compares roles as strings; the four role
strings that occur anywhere in the system are modelled as an enumeration. -/
inductive Role where
  | user
  | assistant
  | tool
  | system
deriving Repr, DecidableEq

/-- A serialized tool call `{id, type, function: {name, arguments}}` (the
nested `function` dict is flattened into the two fields `name` and
`arguments`). -/
structure ToolCall where
  id : String
  type : String
  name : String
  arguments : String
deriving Repr, DecidableEq

/-- A message (src/tyler/models/message.py).  `content` is modelled as a
string: every message the agent loop constructs has string content (`None`
content is normalized to `""` in `Agent.go`).  `sequence` is `Optional[int]`
in Python and is assigned by `Thread.add_message`.  `attributes`, `source`
and `metrics` are opaque payload maps. -/
structure Message where
  role : Role
  content : String
  name : Option String := none
  tool_call_id : Option String := none
  tool_calls : Option (List ToolCall) := none
  sequence : Option Int := none
  attributes : List (String × String) := []
  source : Option (List (String × String)) := none
  metrics : List (String × String) := []
deriving Repr, DecidableEq

/-- `Message.validate_role` (src/tyler/models/message.py lines 101-106):
roles other than `user`, `assistant`, `tool` raise a `ValueError`. -/
def validate_role (v : String) : Except String String :=
  if v = "user" ∨ v = "assistant" ∨ v = "tool" then Except.ok v
  else Except.error "Invalid role. Must be one of: user, assistant, tool"

/-- A thread (src/tyler/models/thread.py).  Timestamps are abstract `Nat`
instants. -/
structure Thread where
  id : String
  title : String := "Untitled Thread"
  messages : List Message := []
  attributes : List (String × String) := []
  created_at : Nat := 0
  updated_at : Nat := 0
deriving Repr, DecidableEq

/-- The generator `(m.sequence for m in self.messages if m.role != "system")`
from `Thread.add_message`.  Messages whose sequence is unset are skipped
(in Python such a message would make `max` raise; it cannot occur in a
thread maintained through `add_message`). -/
def nonSystemSeqs : List Message → List Int
  | [] => []
  | m :: rest =>
    if m.role = Role.system then nonSystemSeqs rest
    else
      match m.sequence with
      | some s => s :: nonSystemSeqs rest
      | none => nonSystemSeqs rest

/-- `max(gen, default=0)` from `Thread.add_message`: the maximum of the
non-system sequences, or `0` when there are none.  (Python's `max` with a
`default` ignores the default on a non-empty iterable.) -/
def maxNonSystemSeq (msgs : List Message) : Int :=
  match nonSystemSeqs msgs with
  | [] => 0
  | s :: rest => rest.foldl max s

/-- The sequence assignment performed by `Thread.add_message` on the message
object it stores: system messages get sequence `0`, any other message gets
`max + 1`. -/
def Thread.assignSeq (t : Thread) (m : Message) : Message :=
  if m.role = Role.system then { m with sequence := some 0 }
  else { m with sequence := some (maxNonSystemSeq t.messages + 1) }

/-- `Thread.add_message` (src/tyler/models/thread.py lines 72-85): system
messages are inserted at the head with sequence `0`; all other messages are
appended with sequence `max + 1`; `updated_at` is set to the current time. -/
def Thread.add_message (t : Thread) (m : Message) (now : Nat) : Thread :=
  let m' := t.assignSeq m
  if m.role = Role.system then
    { t with messages := m' :: t.messages, updated_at := now }
  else
    { t with messages := t.messages ++ [m'], updated_at := now }

/-- A tool-call delta inside one streaming chunk (`delta.tool_calls[i]` in
`Agent._process_streaming_chunks`).  Fields are optional: continuation
chunks carry only an `arguments` fragment, with `id` and `name` absent. -/
structure StreamToolCallDelta where
  id : Option String := none
  name : Option String := none
  arguments : Option String := none
deriving Repr, DecidableEq

/-- Token usage record carried by the final streaming chunk. -/
structure Usage where
  completion_tokens : Nat := 0
  prompt_tokens : Nat := 0
  total_tokens : Nat := 0
deriving Repr, DecidableEq

/-- One streaming chunk: an optional content delta, a list of tool-call
deltas, and (on the final chunk) an optional usage record. -/
structure StreamChunk where
  content : Option String := none
  tool_calls : List StreamToolCallDelta := []
  usage : Option Usage := none
deriving Repr, DecidableEq

/-- The tool-call dictionaries accumulated by
`Agent._process_streaming_chunks`: `{"id": tool_call.id, "type": "function",
"function": {"name": ..., "arguments": ...}}` where the copied fields are
whatever the delta carried (possibly `None`). -/
structure RawToolCall where
  id : Option String
  type : String
  name : Option String
  arguments : Option String
deriving Repr, DecidableEq

/-- `Agent._process_streaming_chunks` (src/tyler/models/agent.py lines
219-265): content deltas are concatenated in arrival order; every tool-call
delta is appended to the accumulated `tool_calls` list as its own entry;
usage is read from the final chunk when present. -/
def Agent.process_streaming_chunks (chunks : List StreamChunk) :
    String × List RawToolCall × Option Usage :=
  let step := fun (acc : String × List RawToolCall) (chunk : StreamChunk) =>
    let content := match chunk.content with
      | some c => acc.1 ++ c
      | none => acc.1
    let calls := acc.2 ++ chunk.tool_calls.map (fun tc =>
      { id := tc.id, type := "function", name := tc.name,
        arguments := tc.arguments })
    (content, calls)
  let folded := chunks.foldl step ("", [])
  (folded.1, folded.2, chunks.getLast?.bind (fun c => c.usage))

/-- Lookup in an association-list dict (`d.get(k)`). -/
def dictGet (d : List (String × String)) (k : String) : Option String :=
  (d.find? (fun p => p.1 = k)).map (fun p => p.2)

/-- The interrupt test from `Agent._process_tool_call`:
`tool_attributes and tool_attributes.get('type') == 'interrupt'` where
`tool_attributes` is `None` or a dict (an empty dict is falsy). -/
def interruptCheck (a : Option (List (String × String))) : Bool :=
  match a with
  | none => false
  | some attrs => !attrs.isEmpty && dictGet attrs "type" == some "interrupt"

/-- The dict returned by `tool_runner.execute_tool_call`: `{name, content}`. -/
structure ToolResult where
  name : Option String := none
  content : String
deriving Repr, DecidableEq

/-- The tool-execution environment seen by one turn of `Agent.go`:
`attrs` is `tool_runner.get_tool_attributes` (registered attributes by tool
name, `none` when the tool has none registered), and `impl` is
`Agent._handle_tool_execution` for one call — `Except.error e` models the
call raising an exception whose message is `e`. -/
structure ToolEnv where
  attrs : String → Option (List (String × String))
  impl : ToolCall → Except String ToolResult

/-- `Agent._process_tool_call` (src/tyler/models/agent.py lines 305-349)
without the thread mutation: builds the tool message for one call and
reports whether the call was an interrupt tool.  An exception from the
implementation is caught and turned into the content
`"Error executing tool: <message>"`.  The tool message's `attributes` carry
the registered tool attributes (the Python code nests them under a
`"tool_attributes"` key; the wrapper key is elided here), and its timing
metrics are not modelled. -/
def Agent.process_tool_call (env : ToolEnv) (tc : ToolCall) : Message × Bool :=
  let tool_name := tc.name
  let tool_attributes := env.attrs tool_name
  let result : ToolResult :=
    match env.impl tc with
    | Except.ok r => r
    | Except.error e => { name := some tool_name, content := "Error executing tool: " ++ e }
  let message : Message :=
    { role := Role.tool
      content := result.content
      name := some (result.name.getD tool_name)
      tool_call_id := some tc.id
      attributes := tool_attributes.getD [] }
  (message, interruptCheck tool_attributes)

/-- One `_process_tool_call` invocation as executed inside `Agent.go`: the
tool message is added to the thread (which assigns its sequence) and the
same stored message is appended to `new_messages`. -/
def Agent.process_tool_call_state (env : ToolEnv) (tc : ToolCall)
    (thread : Thread) (nm : List Message) : Thread × List Message × Bool :=
  let r := Agent.process_tool_call env tc
  let stored := thread.assignSeq r.1
  (thread.add_message r.1 0, nm ++ [stored], r.2)

/-- The `for tool_call in tool_calls` dispatch loop of `Agent.go` (lines
429-438): tool calls are processed in array order; when a call reports
interrupt the loop breaks immediately, leaving the remaining calls
unprocessed.  Returns the updated thread, the updated `new_messages`, and
the `should_break` flag. -/
def Agent.process_tool_calls (env : ToolEnv) :
    List ToolCall → Thread → List Message → Thread × List Message × Bool
  | [], thread, nm => (thread, nm, false)
  | tc :: rest, thread, nm =>
    let r := Agent.process_tool_call_state env tc thread nm
    if r.2.2 then (r.1, r.2.1, true)
    else Agent.process_tool_calls env rest r.1 r.2.1

/-- One LLM completion outcome as consumed by the loop body of `Agent.go`:
the assistant `content` (with `None` normalized to `""`) and the serialized
tool calls (`[]` models both `None` and an empty list — the two are
indistinguishable through `has_tool_calls`). -/
structure LLMResponse where
  content : String
  tool_calls : List ToolCall := []
deriving Repr, DecidableEq

/-- The cap message built by `Agent._handle_max_iterations` and by the
post-loop cap branch of `Agent.go`. -/
def capMessage : Message :=
  { role := Role.assistant
    content := "Maximum tool iteration count reached. Stopping further tool calls." }

/-- Modelled from the spec: `Thread.ensure_system_prompt`, called by
`Agent.go` but absent from src/tyler/models/thread.py.  Per spec §4.5 the
system prompt is placed at the head of the thread (sequence 0) and left
unchanged when a system message is already present. -/
def ensureSystemPrompt (t : Thread) (prompt : String) : Thread :=
  if t.messages.any (fun m => m.role == Role.system) then t
  else t.add_message { role := Role.system, content := prompt } 0

/-- The `while self._iteration_count < self.max_tool_iterations` loop of
`Agent.go` (src/tyler/models/agent.py lines 397-440).  `oracle` is the LLM:
it maps the number of completion calls made so far in this turn to the
response of the next call.  `fuel` is a structural-recursion bound; the
caller passes `maxIter - iter`, which makes the fuel check equivalent to the
loop condition.  Returns the thread, the `new_messages` accumulator, the
iteration count at loop exit, and the number of LLM calls made. -/
def Agent.goLoop (env : ToolEnv) (oracle : Nat → LLMResponse) (maxIter : Nat) :
    Nat → Nat → Thread → List Message → Nat → Thread × List Message × Nat × Nat
  | 0, iter, thread, nm, calls => (thread, nm, iter, calls)
  | fuel + 1, iter, thread, nm, calls =>
    if iter < maxIter then
      let r := oracle calls
      let hasToolCalls := !r.tool_calls.isEmpty
      let (thread1, nm1) :=
        if r.content != "" || hasToolCalls then
          let m : Message :=
            { role := Role.assistant
              content := r.content
              tool_calls := if hasToolCalls then some r.tool_calls else none }
          (thread.add_message m 0, nm ++ [thread.assignSeq m])
        else (thread, nm)
      if !hasToolCalls then (thread1, nm1, iter, calls + 1)
      else
        let d := Agent.process_tool_calls env r.tool_calls thread1 nm1
        if d.2.2 then (d.1, d.2.1, iter, calls + 1)
        else Agent.goLoop env oracle maxIter fuel (iter + 1) d.1 d.2.1 (calls + 1)
    else (thread, nm, iter, calls)

/-- `Agent.go` for one turn (src/tyler/models/agent.py lines 364-458) with
`new_messages` starting empty.  `iter` is the entry value of
`self._iteration_count`.  The attachment-processing step is omitted: it only
mutates attachment payloads and adds no messages.  Returns the thread, the
returned non-user `new_messages`, and the number of LLM calls made. -/
def Agent.go (env : ToolEnv) (oracle : Nat → LLMResponse) (maxIter iter : Nat)
    (systemPrompt : String) (thread0 : Thread) : Thread × List Message × Nat :=
  let thread := ensureSystemPrompt thread0 systemPrompt
  if maxIter ≤ iter then
    let m := thread.assignSeq capMessage
    (thread.add_message capMessage 0,
     [m].filter (fun x => x.role ≠ Role.user), 0)
  else
    let r := Agent.goLoop env oracle maxIter (maxIter - iter) iter thread [] 0
    let (t1, nm1) :=
      if maxIter ≤ r.2.2.1 then
        (r.1.add_message capMessage 0, r.2.1 ++ [r.1.assignSeq capMessage])
      else (r.1, r.2.1)
    (t1, nm1.filter (fun x => x.role ≠ Role.user), r.2.2.2)

/-- A persisted message row (`MessageRecord` of
src/tyler/database/models.py) restricted to the fields the claims inspect.
Unlike an in-memory `Message`, a record's `sequence` is definite: it is
assigned by `SQLBackend.save`. -/
structure MessageRecord where
  sequence : Int
  role : Role
  content : String
  name : Option String
  tool_call_id : Option String
  tool_calls : Option (List ToolCall)
  attributes : List (String × String)
  source : Option (List (String × String))
  metrics : List (String × String)
deriving Repr, DecidableEq

/-- `SQLBackend._create_message_record` (storage_backend.py lines 200-216):
all fields are copied from the message except `sequence`, which is the value
passed by `save`. -/
def SQLBackend.create_message_record (m : Message) (sequence : Int) : MessageRecord :=
  { sequence := sequence
    role := m.role
    content := m.content
    name := m.name
    tool_call_id := m.tool_call_id
    tool_calls := m.tool_calls
    attributes := m.attributes
    source := m.source
    metrics := m.metrics }

/-- The second message loop of `SQLBackend.save` (lines 265-269): non-system
messages, in thread order, are given the consecutive sequences
`seq, seq+1, …`; system messages are skipped. -/
def SQLBackend.nonSystemRecords : List Message → Int → List MessageRecord
  | [], _ => []
  | m :: rest, seq =>
    if m.role = Role.system then SQLBackend.nonSystemRecords rest seq
    else SQLBackend.create_message_record m seq :: SQLBackend.nonSystemRecords rest (seq + 1)

/-- The message-record list built by `SQLBackend.save` (storage_backend.py
lines 256-269): first every system message with sequence `0` (in thread
order), then every non-system message with sequences `1, 2, …` assigned in
thread order, ignoring the in-memory `sequence` values. -/
def SQLBackend.saveRecords (msgs : List Message) : List MessageRecord :=
  (msgs.filter (fun m => m.role = Role.system)).map
      (fun m => SQLBackend.create_message_record m 0)
    ++ SQLBackend.nonSystemRecords msgs 1

/-- `SQLBackend._create_message_from_record` (lines 162-179): all fields are
copied back from the record, including its stored sequence. -/
def SQLBackend.create_message_from_record (r : MessageRecord) : Message :=
  { role := r.role
    content := r.content
    name := r.name
    tool_call_id := r.tool_call_id
    tool_calls := r.tool_calls
    sequence := some r.sequence
    attributes := r.attributes
    source := r.source
    metrics := r.metrics }

/-- Sort key used by `SQLBackend._create_thread_from_record` (lines
192-194): `(0 if role == system else 1, sequence)`. -/
def SQLBackend.recordKey (r : MessageRecord) : Int × Int :=
  ((if r.role = Role.system then 0 else 1), r.sequence)

/-- Strict lexicographic comparison on sort keys. -/
def keyLt (a b : Int × Int) : Bool :=
  a.1 < b.1 || (a.1 == b.1 && a.2 < b.2)

/-- Stable insertion (a later element is placed after earlier elements with
an equal key), modelling Python's stable `sorted`. -/
def insertStable (x : MessageRecord) : List MessageRecord → List MessageRecord
  | [] => [x]
  | y :: ys =>
    if keyLt (SQLBackend.recordKey x) (SQLBackend.recordKey y) then x :: y :: ys
    else y :: insertStable x ys

/-- The `sorted(record.messages, key=...)` call of
`SQLBackend._create_thread_from_record`: a stable sort by
`(system-flag, sequence)`. -/
def SQLBackend.sortRecords (l : List MessageRecord) : List MessageRecord :=
  l.foldr insertStable []

/-- `SQLBackend._create_thread_from_record` (storage_backend.py lines
181-198) applied to the records produced by `save`: what `get` returns for
the saved thread, namely every stored record — system records first —
converted back to messages. -/
def SQLBackend.saveThenGet (t : Thread) : Thread :=
  { t with
    messages := (SQLBackend.sortRecords (SQLBackend.saveRecords t.messages)).map
      SQLBackend.create_message_from_record }

/-- The thread constructed by `AgentRunner.run_agent`
(src/tyler/utils/agent_runner.py lines 75-102): a fresh thread with the task
as user message and, when context is given, a second user message carrying
the context string.  Both are tagged with the agent-runner source. -/
def AgentRunner.buildTaskThread (task : String) (context : Option String) : Thread :=
  let src : List (String × String) :=
    [("id", "agent_runner"), ("name", "AgentRunner"), ("type", "tool")]
  let thread : Thread := { id := "task-thread" }
  let thread := thread.add_message
    { role := Role.user, content := task, source := some src } 0
  match context with
  | some ctx =>
    thread.add_message
      { role := Role.user
        content := "Here is additional context that may be helpful:\n" ++ ctx
        source := some src } 0
  | none => thread

/-- `AgentRunner.run_agent` (src/tyler/utils/agent_runner.py lines 104-119).
`agents` is the runner's name → agent registry; each agent is represented by
its `go` function on a thread.  A missing name raises `ValueError`.
Otherwise the target agent is run on the task thread, and the result is the
content and metrics of the LAST assistant message among the returned
`new_messages`, or `"No response generated."` with empty metrics when there
is none. -/
def AgentRunner.run_agent
    (agents : List (String × (Thread → Thread × List Message)))
    (name : String) (task : String) (context : Option String) :
    Except String (String × List (String × String)) :=
  match (agents.find? (fun p => p.1 = name)).map (fun p => p.2) with
  | none => Except.error ("Agent '" ++ name ++ "' not found")
  | some goFn =>
    let result := goFn (AgentRunner.buildTaskThread task context)
    let assistant_messages := result.2.filter (fun m => m.role == Role.assistant)
    match assistant_messages.getLast? with
    | none => Except.ok ("No response generated.", [])
    | some last => Except.ok (last.content, last.metrics)

/-- The sequencing invariant of §8 items 1: every non-system sequence is at
least `1`, and the non-system sequences are strictly increasing in list
(= insertion) order. -/
def SeqInv (msgs : List Message) : Prop :=
  List.Pairwise (· < ·) (nonSystemSeqs msgs) ∧ ∀ s ∈ nonSystemSeqs msgs, 1 ≤ s

/-- Example tool call whose tool is registered with `type=interrupt`. -/
def exInterruptCall : ToolCall :=
  { id := "c1", type := "function", name := "ask_user", arguments := "\x7b\x7d" }

/-- Example tool call for an ordinary registered tool. -/
def exPlainCall : ToolCall :=
  { id := "c2", type := "function", name := "get_info", arguments := "\x7b\x7d" }

/-- Environment with no registered tool attributes; every implementation
succeeds. -/
def envPlain : ToolEnv :=
  { attrs := fun _ => none
    impl := fun tc => Except.ok { name := some tc.name, content := "result of " ++ tc.name } }

/-- Environment in which `ask_user` is registered with `type=interrupt`. -/
def envInterrupt : ToolEnv :=
  { attrs := fun n => if n = "ask_user" then some [("type", "interrupt")] else none
    impl := fun tc => Except.ok { name := some tc.name, content := "result of " ++ tc.name } }

/-- Environment in which the implementation of `ask_user` raises `boom`
while other tools succeed. -/
def envFirstRaises : ToolEnv :=
  { attrs := fun _ => none
    impl := fun tc =>
      if tc.name = "ask_user" then Except.error "boom"
      else Except.ok { name := some tc.name, content := "result of " ++ tc.name } }

/-- LLM oracle that answers every completion call with one `ask_user` tool
call. -/
def oracleSingleCall : Nat → LLMResponse :=
  fun _ => { content := "", tool_calls := [exInterruptCall] }

/-- LLM oracle whose first completion requests `[ask_user, get_info]` and
whose follow-up answers with plain content. -/
def oraclePairCall : Nat → LLMResponse :=
  fun n => if n = 0 then { content := "", tool_calls := [exInterruptCall, exPlainCall] }
           else { content := "done" }

/-- An empty thread. -/
def exThread : Thread := { id := "t1" }

/-- A system message, as constructed by the repository's own tests
(`Message(role="system", content="System message 1")`). -/
def exSystemMessage : Message := { role := Role.system, content := "System message 1" }

/-- A user message. -/
def exUserMessage : Message := { role := Role.user, content := "User message" }

/-- A second user message. -/
def exUserMessage2 : Message := { role := Role.user, content := "Second user message" }

/-- The thread of the repository's `test_system_messages_not_persisted`
restricted to its first two messages: a system message then a user
message. -/
def exThreadWithSystem : Thread :=
  (exThread.add_message exSystemMessage 1).add_message exUserMessage 2

/-- First streaming chunk of the repository's
`test_process_streaming_chunks_with_continuation`: establishes id, name and
the first arguments fragment of tool call `call_123`. -/
def chunkInit : StreamChunk :=
  { tool_calls := [{ id := some "call_123", name := some "test_tool",
                     arguments := some "\x7b\"param\": " }] }

/-- Second (continuation) chunk: only an arguments fragment, no id or
name. -/
def chunkCont : StreamChunk :=
  { tool_calls := [{ arguments := some "\"value\"\x7d" }] }

/-- Final chunk carrying only usage. -/
def chunkUsage : StreamChunk :=
  { usage := some { completion_tokens := 10, prompt_tokens := 20, total_tokens := 30 } }

/-- An agent `go` function producing two assistant messages, used to probe
`AgentRunner.run_agent`. -/
def exGoTwoAssistants : Thread → Thread × List Message :=
  fun t => (t, [{ role := Role.assistant, content := "A" },
                { role := Role.assistant, content := "B" }])

/-- A one-agent registry for `AgentRunner.run_agent`. -/
def exAgents : List (String × (Thread → Thread × List Message)) :=
  [("writer", exGoTwoAssistants)]

theorem assignSeq_role (t : Thread) (m : Message) : (t.assignSeq m).role = m.role := by
  unfold Thread.assignSeq; split <;> rfl

theorem assignSeq_content (t : Thread) (m : Message) :
    (t.assignSeq m).content = m.content := by
  unfold Thread.assignSeq; split <;> rfl

theorem assignSeq_tool_call_id (t : Thread) (m : Message) :
    (t.assignSeq m).tool_call_id = m.tool_call_id := by
  unfold Thread.assignSeq; split <;> rfl

theorem assignSeq_tool_calls (t : Thread) (m : Message) :
    (t.assignSeq m).tool_calls = m.tool_calls := by
  unfold Thread.assignSeq; split <;> rfl

theorem add_message_messages_of_non_system (t : Thread) (m : Message) (now : Nat)
    (h : ¬ m.role = Role.system) :
    (t.add_message m now).messages = t.messages ++ [t.assignSeq m] := by
  unfold Thread.add_message; rw [if_neg h]

theorem add_message_messages_of_system (t : Thread) (m : Message) (now : Nat)
    (h : m.role = Role.system) :
    (t.add_message m now).messages = t.assignSeq m :: t.messages := by
  unfold Thread.add_message; rw [if_pos h]

theorem add_message_updated_at (t : Thread) (m : Message) (now : Nat) :
    (t.add_message m now).updated_at = now := by
  unfold Thread.add_message; split <;> rfl

theorem process_tool_call_role (env : ToolEnv) (tc : ToolCall) :
    (Agent.process_tool_call env tc).1.role = Role.tool := rfl

theorem process_tool_call_tcid (env : ToolEnv) (tc : ToolCall) :
    (Agent.process_tool_call env tc).1.tool_call_id = some tc.id := rfl

theorem process_tool_call_snd (env : ToolEnv) (tc : ToolCall) :
    (Agent.process_tool_call env tc).2 = interruptCheck (env.attrs tc.name) := rfl

theorem process_tool_call_content (env : ToolEnv) (tc : ToolCall) :
    (Agent.process_tool_call env tc).1.content
      = (match env.impl tc with
         | Except.ok r => r.content
         | Except.error e => "Error executing tool: " ++ e) := by
  cases h : env.impl tc <;> simp [Agent.process_tool_call, h]

theorem process_tool_call_state_eq (env : ToolEnv) (tc : ToolCall)
    (thread : Thread) (nm : List Message) :
    Agent.process_tool_call_state env tc thread nm
      = (thread.add_message (Agent.process_tool_call env tc).1 0,
         nm ++ [thread.assignSeq (Agent.process_tool_call env tc).1],
         (Agent.process_tool_call env tc).2) := rfl

theorem nonSystemSeqs_append (l1 l2 : List Message) :
    nonSystemSeqs (l1 ++ l2) = nonSystemSeqs l1 ++ nonSystemSeqs l2 := by
  induction l1 with
  | nil => simp [nonSystemSeqs]
  | cons m rest ih =>
    by_cases hm : m.role = Role.system
    · simp [nonSystemSeqs, hm, ih]
    · cases hs : m.sequence <;> simp [nonSystemSeqs, hm, hs, ih]

theorem le_foldl_max (l : List Int) (a : Int) : a ≤ l.foldl max a := by
  induction l generalizing a with
  | nil => simp
  | cons x xs ih =>
    calc a ≤ max a x := le_max_left a x
    _ ≤ xs.foldl max (max a x) := ih (max a x)
    _ = (x :: xs).foldl max a := rfl

theorem mem_le_foldl_max {x : Int} {l : List Int} (h : x ∈ l) (a : Int) :
    x ≤ l.foldl max a := by
  induction l generalizing a with
  | nil => cases h
  | cons y ys ih =>
    rcases List.mem_cons.mp h with rfl | hy
    · calc x ≤ max a x := le_max_right a x
      _ ≤ ys.foldl max (max a x) := le_foldl_max ys (max a x)
      _ = (x :: ys).foldl max a := rfl
    · exact ih hy (max a y)

theorem mem_le_maxNonSystemSeq {x : Int} {msgs : List Message}
    (h : x ∈ nonSystemSeqs msgs) : x ≤ maxNonSystemSeq msgs := by
  unfold maxNonSystemSeq
  cases hl : nonSystemSeqs msgs with
  | nil => rw [hl] at h; cases h
  | cons s rest =>
    rw [hl] at h
    rcases List.mem_cons.mp h with rfl | hr
    · exact le_foldl_max rest x
    · exact mem_le_foldl_max hr s

theorem maxNonSystemSeq_nonneg {msgs : List Message}
    (h : ∀ s ∈ nonSystemSeqs msgs, 1 ≤ s) : 0 ≤ maxNonSystemSeq msgs := by
  unfold maxNonSystemSeq
  cases hl : nonSystemSeqs msgs with
  | nil => simp
  | cons s rest =>
    have hs : (1 : Int) ≤ s := h s (by rw [hl]; exact List.mem_cons_self s rest)
    calc (0 : Int) ≤ s := by omega
    _ ≤ rest.foldl max s := le_foldl_max rest s

theorem maxNonSystemSeq_eq_foldl_zero {msgs : List Message}
    (h : ∀ s ∈ nonSystemSeqs msgs, 0 ≤ s) :
    maxNonSystemSeq msgs = (nonSystemSeqs msgs).foldl max 0 := by
  unfold maxNonSystemSeq
  cases hl : nonSystemSeqs msgs with
  | nil => simp
  | cons s rest =>
    have hs : (0 : Int) ≤ s := h s (by rw [hl]; exact List.mem_cons_self s rest)
    simp [List.foldl_cons, max_eq_right hs]

theorem nonSystemSeqs_singleton_of_non_system (m : Message) (s : Int)
    (hrole : ¬ m.role = Role.system) (hseq : m.sequence = some s) :
    nonSystemSeqs [m] = [s] := by
  simp [nonSystemSeqs, hrole, hseq]

theorem seqInv_add_message (t : Thread) (m : Message) (now : Nat)
    (h : SeqInv t.messages) : SeqInv (t.add_message m now).messages := by
  obtain ⟨hpw, hge⟩ := h
  by_cases hm : m.role = Role.system
  · rw [add_message_messages_of_system t m now hm]
    have hrole : (t.assignSeq m).role = Role.system := by rw [assignSeq_role]; exact hm
    constructor
    · simpa [nonSystemSeqs, hrole] using hpw
    · simpa [nonSystemSeqs, hrole] using hge
  · rw [add_message_messages_of_non_system t m now hm]
    have hrole : ¬ (t.assignSeq m).role = Role.system := by rw [assignSeq_role]; exact hm
    have hseq : (t.assignSeq m).sequence = some (maxNonSystemSeq t.messages + 1) := by
      unfold Thread.assignSeq; rw [if_neg hm]
    have hsingle : nonSystemSeqs [t.assignSeq m] = [maxNonSystemSeq t.messages + 1] :=
      nonSystemSeqs_singleton_of_non_system _ _ hrole hseq
    have happ : nonSystemSeqs (t.messages ++ [t.assignSeq m])
        = nonSystemSeqs t.messages ++ [maxNonSystemSeq t.messages + 1] := by
      rw [nonSystemSeqs_append, hsingle]
    constructor
    · rw [happ]
      rw [List.pairwise_append]
      refine ⟨hpw, List.pairwise_singleton _ _, ?_⟩
      intro a ha b hb
      rcases List.mem_singleton.mp hb with rfl
      have := mem_le_maxNonSystemSeq ha
      omega
    · rw [happ]
      intro s hs
      rcases List.mem_append.mp hs with hs | hs
      · exact hge s hs
      · rcases List.mem_singleton.mp hs with rfl
        have := maxNonSystemSeq_nonneg hge
        omega

theorem seqInv_foldl (ins : List (Message × Nat)) (t0 : Thread)
    (h : SeqInv t0.messages) :
    SeqInv ((ins.foldl (fun t p => t.add_message p.1 p.2) t0).messages) := by
  induction ins generalizing t0 with
  | nil => exact h
  | cons p rest ih =>
    exact ih (t0.add_message p.1 p.2) (seqInv_add_message t0 p.1 p.2 h)

theorem create_message_record_role (m : Message) (s : Int) :
    (SQLBackend.create_message_record m s).role = m.role := rfl

theorem nonSystemRecords_roles (l : List Message) (s : Int) :
    ∀ r ∈ SQLBackend.nonSystemRecords l s, ¬ r.role = Role.system := by
  induction l generalizing s with
  | nil => intro r hr; cases hr
  | cons m rest ih =>
    intro r hr
    by_cases hm : m.role = Role.system
    · rw [SQLBackend.nonSystemRecords, if_pos hm] at hr
      exact ih s r hr
    · rw [SQLBackend.nonSystemRecords, if_neg hm] at hr
      rcases List.mem_cons.mp hr with rfl | hr
      · rw [create_message_record_role]; exact hm
      · exact ih (s + 1) r hr

theorem nonSystemRecords_map_seq (l : List Message) (s : Int) :
    (SQLBackend.nonSystemRecords l s).map (fun r => r.sequence)
      = (List.range (l.filter (fun m => ¬ m.role = Role.system)).length).map
          (fun i : Nat => s + (i : Int)) := by
  induction l generalizing s with
  | nil => simp [SQLBackend.nonSystemRecords]
  | cons m rest ih =>
    by_cases hm : m.role = Role.system
    · rw [SQLBackend.nonSystemRecords, if_pos hm]
      have hf : (m :: rest).filter (fun x => ¬ x.role = Role.system)
          = rest.filter (fun x => ¬ x.role = Role.system) := by
        simp [List.filter_cons, hm]
      rw [hf]
      exact ih s
    · rw [SQLBackend.nonSystemRecords, if_neg hm]
      have hf : (m :: rest).filter (fun x => ¬ x.role = Role.system)
          = m :: rest.filter (fun x => ¬ x.role = Role.system) := by
        simp [List.filter_cons, hm]
      rw [hf, List.map_cons, ih (s + 1), List.length_cons, List.range_succ_eq_map,
        List.map_cons, List.map_map]
      refine List.cons_eq_cons.mpr ⟨by simp [SQLBackend.create_message_record], ?_⟩
      apply List.map_congr_left
      intro i hi
      simp only [Function.comp_apply]
      push_cast
      ring

theorem saveRecords_filter_non_system (msgs : List Message) :
    (SQLBackend.saveRecords msgs).filter (fun r => ¬ r.role = Role.system)
      = SQLBackend.nonSystemRecords msgs 1 := by
  unfold SQLBackend.saveRecords
  rw [List.filter_append]
  have h1 : ((msgs.filter (fun m => m.role = Role.system)).map
      (fun m => SQLBackend.create_message_record m 0)).filter
        (fun r => ¬ r.role = Role.system) = [] := by
    simp only [List.filter_eq_nil_iff, List.mem_map, List.mem_filter]
    rintro r ⟨m, ⟨_, hm⟩, rfl⟩
    simp only [decide_eq_true_eq] at hm ⊢
    simp [create_message_record_role, hm]
  have h2 : (SQLBackend.nonSystemRecords msgs 1).filter
      (fun r => ¬ r.role = Role.system) = SQLBackend.nonSystemRecords msgs 1 := by
    rw [List.filter_eq_self]
    intro r hr
    simpa using nonSystemRecords_roles msgs 1 r hr
  rw [h1, h2, List.nil_append]

theorem saveRecords_filter_system (msgs : List Message) :
    (SQLBackend.saveRecords msgs).filter (fun r => r.role = Role.system)
      = (msgs.filter (fun m => m.role = Role.system)).map
          (fun m => SQLBackend.create_message_record m 0) := by
  unfold SQLBackend.saveRecords
  rw [List.filter_append]
  have h1 : ((msgs.filter (fun m => m.role = Role.system)).map
      (fun m => SQLBackend.create_message_record m 0)).filter
        (fun r => r.role = Role.system)
      = (msgs.filter (fun m => m.role = Role.system)).map
          (fun m => SQLBackend.create_message_record m 0) := by
    rw [List.filter_eq_self]
    intro r hr
    simp only [List.mem_map, List.mem_filter] at hr
    obtain ⟨m, ⟨_, hm⟩, rfl⟩ := hr
    simpa [create_message_record_role] using hm
  have h2 : (SQLBackend.nonSystemRecords msgs 1).filter
      (fun r => r.role = Role.system) = [] := by
    simp only [List.filter_eq_nil_iff]
    intro r hr
    simpa using nonSystemRecords_roles msgs 1 r hr
  rw [h1, h2, List.append_nil]

theorem nonSystemRecords_forall₂ (l : List Message) (s : Int) :
    List.Forall₂ (fun (m : Message) (r : MessageRecord) =>
        r.role = m.role ∧ r.content = m.content ∧ r.name = m.name ∧
        r.tool_call_id = m.tool_call_id ∧ r.tool_calls = m.tool_calls ∧
        r.attributes = m.attributes ∧ r.source = m.source ∧ r.metrics = m.metrics)
      (l.filter (fun m => ¬ m.role = Role.system)) (SQLBackend.nonSystemRecords l s) := by
  induction l generalizing s with
  | nil =>
    rw [SQLBackend.nonSystemRecords, List.filter_nil]
    exact List.Forall₂.nil
  | cons m rest ih =>
    by_cases hm : m.role = Role.system
    · rw [SQLBackend.nonSystemRecords, if_pos hm]
      have hf : (m :: rest).filter (fun x => ¬ x.role = Role.system)
          = rest.filter (fun x => ¬ x.role = Role.system) := by
        simp [List.filter_cons, hm]
      rw [hf]
      exact ih s
    · rw [SQLBackend.nonSystemRecords, if_neg hm]
      have hf : (m :: rest).filter (fun x => ¬ x.role = Role.system)
          = m :: rest.filter (fun x => ¬ x.role = Role.system) := by
        simp [List.filter_cons, hm]
      rw [hf]
      exact List.Forall₂.cons ⟨rfl, rfl, rfl, rfl, rfl, rfl, rfl, rfl⟩ (ih (s + 1))

theorem forall₂_map_of_all {α β : Type} (P : α → β → Prop) (f : α → β)
    (l : List α) (h : ∀ a ∈ l, P a (f a)) : List.Forall₂ P l (l.map f) := by
  induction l with
  | nil => exact List.Forall₂.nil
  | cons a rest ih =>
    exact List.Forall₂.cons (h a (List.mem_cons_self a rest))
      (ih (fun b hb => h b (List.mem_cons_of_mem a hb)))

/-- Claim C9 (code bug): message construction is claimed to accept the four
roles user, assistant, tool and system; the validator in
src/tyler/models/message.py accepts only user, assistant and tool and
raises a `ValueError` for `"system"`, even though the repository's own
thread model, agent and tests all construct system messages.  This theorem
evaluates the validator on the failing input `"system"` and on the three
accepted roles. -/
theorem validate_role_rejects_system :
    validate_role "system"
      = Except.error "Invalid role. Must be one of: user, assistant, tool" ∧
    validate_role "user" = Except.ok "user" ∧
    validate_role "assistant" = Except.ok "assistant" ∧
    validate_role "tool" = Except.ok "tool" := by
  refine ⟨?_, ?_, ?_, ?_⟩ <;> rfl

/-- Claim C7 (code bug): the streaming reassembler is claimed to merge
tool-call deltas by index, concatenating `function.arguments` fragments.
On the chunk sequence of the repository's own
`test_process_streaming_chunks_with_continuation` — an initial delta for
`call_123` followed by an arguments-only continuation delta — the code
produces two separate entries and never concatenates the fragments, instead
of the single merged entry the test and the spec expect. -/
theorem streaming_chunks_not_merged_by_index :
    (Agent.process_streaming_chunks [chunkInit, chunkCont, chunkUsage]).2.1
      = [{ id := some "call_123", type := "function", name := some "test_tool",
           arguments := some "\x7b\"param\": " },
         { id := none, type := "function", name := none,
           arguments := some "\"value\"\x7d" }] ∧
    (Agent.process_streaming_chunks [chunkInit, chunkCont, chunkUsage]).2.1
      ≠ [{ id := some "call_123", type := "function", name := some "test_tool",
           arguments := some "\x7b\"param\": \"value\"\x7d" }] := by
  constructor
  · rfl
  · decide

/-- Claim C5 (code bug): `save` followed by `get` on the durable SQL backend
is claimed to strip system messages.  Evaluating the record round-trip of
`SQLBackend.save` / `SQLBackend._create_thread_from_record` on a thread
holding a system message and a user message — the shape of the repository's
own `test_system_messages_not_persisted` — shows the system message is
persisted with sequence 0 and returned first by `get`. -/
theorem sql_save_persists_system_messages :
    (SQLBackend.saveThenGet exThreadWithSystem).messages.map
        (fun m => (m.role, m.content, m.sequence))
      = [(Role.system, "System message 1", some 0),
         (Role.user, "User message", some 1)] ∧
    ((SQLBackend.saveThenGet exThreadWithSystem).messages.any
        (fun m => m.role == Role.system)) = true := by
  constructor
  · rfl
  · rfl

/-- Claim C6 counterexample: for an agent whose turn produces two assistant
messages with contents "A" and "B", `run_agent` returns "B" — the last
assistant content — and not the double-newline join "A\n\nB" the claim
states. -/
theorem run_agent_not_joined_counterexample :
    AgentRunner.run_agent exAgents "writer" "task" none = Except.ok ("B", []) ∧
    "B" ≠ String.intercalate "\n\n" ["A", "B"] := by
  constructor
  · rfl
  · decide

/-- Claim C6 (amended): for every registered agent and every task whose
turn produces at least one assistant message, `AgentRunner.run_agent`
returns the content and metrics of the LAST assistant message among the
invoked agent's `new_messages` (not a concatenation of all of them). -/
theorem run_agent_returns_last_assistant
    (agents : List (String × (Thread → Thread × List Message)))
    (name task : String) (context : Option String)
    (goFn : Thread → Thread × List Message) (last : Message)
    (hfind : agents.find? (fun p => p.1 = name) = some (name, goFn))
    (hlast : ((goFn (AgentRunner.buildTaskThread task context)).2.filter
        (fun m => m.role == Role.assistant)).getLast? = some last) :
    AgentRunner.run_agent agents name task context
      = Except.ok (last.content, last.metrics) := by
  unfold AgentRunner.run_agent
  rw [hfind]
  dsimp only [Option.map]
  rw [hlast]

/-- Witness for `run_agent_returns_last_assistant` at the concrete registry
`exAgents`. -/
theorem run_agent_returns_last_assistant_witness :
    AgentRunner.run_agent exAgents "writer" "some task" none
      = Except.ok ("B", []) :=
  run_agent_returns_last_assistant exAgents "writer" "some task" none
    exGoTwoAssistants { role := Role.assistant, content := "B" } rfl rfl

/-- Claim C10: `SQLBackend.save` stores every system message with sequence
0, and reassigns the persisted sequences of the non-system messages
consecutively from 1 in thread-list order, copying every other field and
ignoring the in-memory sequence values. -/
theorem sql_save_reassigns_sequences (msgs : List Message) :
    (∀ r ∈ SQLBackend.saveRecords msgs, r.role = Role.system → r.sequence = 0) ∧
    ((SQLBackend.saveRecords msgs).filter (fun r => ¬ r.role = Role.system)).map
        (fun r => r.sequence)
      = (List.range (msgs.filter (fun m => ¬ m.role = Role.system)).length).map
          (fun i : Nat => (i : Int) + 1) ∧
    List.Forall₂ (fun (m : Message) (r : MessageRecord) =>
        r.role = m.role ∧ r.content = m.content ∧ r.name = m.name ∧
        r.tool_call_id = m.tool_call_id ∧ r.tool_calls = m.tool_calls ∧
        r.attributes = m.attributes ∧ r.source = m.source ∧ r.metrics = m.metrics)
      (msgs.filter (fun m => ¬ m.role = Role.system))
      ((SQLBackend.saveRecords msgs).filter (fun r => ¬ r.role = Role.system)) ∧
    List.Forall₂ (fun (_ : Message) (r : MessageRecord) =>
        r.sequence = 0 ∧ r.role = Role.system)
      (msgs.filter (fun m => m.role = Role.system))
      ((SQLBackend.saveRecords msgs).filter (fun r => r.role = Role.system)) := by
  refine ⟨?_, ?_, ?_, ?_⟩
  · intro r hr hsys
    unfold SQLBackend.saveRecords at hr
    rcases List.mem_append.mp hr with hr | hr
    · obtain ⟨m, _, rfl⟩ := List.mem_map.mp hr
      rfl
    · exact absurd hsys (nonSystemRecords_roles msgs 1 r hr)
  · rw [saveRecords_filter_non_system, nonSystemRecords_map_seq]
    apply List.map_congr_left
    intro i _
    omega
  · rw [saveRecords_filter_non_system]
    exact nonSystemRecords_forall₂ msgs 1
  · rw [saveRecords_filter_system]
    apply forall₂_map_of_all
    intro m hm
    exact ⟨rfl, by
      have := (List.mem_filter.mp hm).2
      simpa [create_message_record_role] using this⟩

/-- Claim C4: `Thread.add_message` places a system message at the head with
sequence 0, appends any other message with sequence
`1 + max(existing non-system sequences, 0)`, and bumps `updated_at`;
consequently, for any thread maintained through `add_message`, every
non-system message has sequence at least 1 and the non-system sequences are
strictly increasing in insertion order. -/
theorem thread_add_message_sequencing :
    (∀ (t : Thread) (m : Message) (now : Nat), m.role = Role.system →
      (t.add_message m now).messages = { m with sequence := some 0 } :: t.messages ∧
      (t.add_message m now).updated_at = now) ∧
    (∀ (t : Thread) (m : Message) (now : Nat), ¬ m.role = Role.system →
      (∀ s ∈ nonSystemSeqs t.messages, 0 ≤ s) →
      (t.add_message m now).messages
        = t.messages
            ++ [{ m with sequence := some ((nonSystemSeqs t.messages).foldl max 0 + 1) }] ∧
      (t.add_message m now).updated_at = now) ∧
    (∀ (t0 : Thread), SeqInv t0.messages → ∀ ins : List (Message × Nat),
      List.Pairwise (· < ·)
        (nonSystemSeqs ((ins.foldl (fun t p => t.add_message p.1 p.2) t0).messages)) ∧
      ∀ s ∈ nonSystemSeqs ((ins.foldl (fun t p => t.add_message p.1 p.2) t0).messages),
        1 ≤ s) := by
  refine ⟨?_, ?_, ?_⟩
  · intro t m now hm
    refine ⟨?_, add_message_updated_at t m now⟩
    rw [add_message_messages_of_system t m now hm]
    unfold Thread.assignSeq
    rw [if_pos hm]
  · intro t m now hm h0
    refine ⟨?_, add_message_updated_at t m now⟩
    rw [add_message_messages_of_non_system t m now hm]
    unfold Thread.assignSeq
    rw [if_neg hm, maxNonSystemSeq_eq_foldl_zero h0]
  · intro t0 h0 ins
    exact seqInv_foldl ins t0 h0

/-- Witness for `thread_add_message_sequencing`: all three parts applied at
concrete inputs (an empty thread, a system message, user messages). -/
theorem thread_add_message_sequencing_witness :
    ((exThread.add_message exSystemMessage 5).messages
        = { exSystemMessage with sequence := some 0 } :: exThread.messages ∧
      (exThread.add_message exSystemMessage 5).updated_at = 5) ∧
    ((exThread.add_message exUserMessage 7).messages
        = exThread.messages
            ++ [{ exUserMessage with
                  sequence := some ((nonSystemSeqs exThread.messages).foldl max 0 + 1) }] ∧
      (exThread.add_message exUserMessage 7).updated_at = 7) ∧
    (List.Pairwise (· < ·)
        (nonSystemSeqs (([(exUserMessage, 1), (exSystemMessage, 2), (exUserMessage2, 3)].foldl
            (fun t p => t.add_message p.1 p.2) exThread).messages)) ∧
      ∀ s ∈ nonSystemSeqs (([(exUserMessage, 1), (exSystemMessage, 2),
            (exUserMessage2, 3)].foldl (fun t p => t.add_message p.1 p.2) exThread).messages),
        1 ≤ s) :=
  ⟨thread_add_message_sequencing.1 exThread exSystemMessage 5 rfl,
   thread_add_message_sequencing.2.1 exThread exUserMessage 7 (by decide)
     (by intro s hs; simp [exThread, nonSystemSeqs] at hs),
   thread_add_message_sequencing.2.2 exThread
     (by constructor <;> simp [exThread, nonSystemSeqs])
     [(exUserMessage, 1), (exSystemMessage, 2), (exUserMessage2, 3)]⟩

/-- Claim C3: during tool dispatch, an exception raised by a tool
implementation is caught and becomes a tool message whose content is
`"Error executing tool: <message>"`; the exception never escapes, and all
sibling (non-interrupt) tool calls of the same assistant message still
execute and produce their own tool messages, one per call in order. -/
theorem tool_exceptions_isolated (env : ToolEnv) (tcs : List ToolCall)
    (thread : Thread) (nm : List Message)
    (hni : ∀ tc ∈ tcs, interruptCheck (env.attrs tc.name) = false) :
    (Agent.process_tool_calls env tcs thread nm).2.2 = false ∧
    ∃ msgs,
      (Agent.process_tool_calls env tcs thread nm).2.1 = nm ++ msgs ∧
      (Agent.process_tool_calls env tcs thread nm).1.messages
        = thread.messages ++ msgs ∧
      List.Forall₂ (fun (tc : ToolCall) (m : Message) =>
          m.role = Role.tool ∧ m.tool_call_id = some tc.id ∧
          m.content = (match env.impl tc with
            | Except.ok r => r.content
            | Except.error e => "Error executing tool: " ++ e)) tcs msgs := by
  induction tcs generalizing thread nm with
  | nil =>
    exact ⟨rfl, [], by simp [Agent.process_tool_calls],
      by simp [Agent.process_tool_calls], List.Forall₂.nil⟩
  | cons tc rest ih =>
    have hbrk : (Agent.process_tool_call env tc).2 = false := by
      rw [process_tool_call_snd]; exact hni tc (List.mem_cons_self _ _)
    have hstep : Agent.process_tool_calls env (tc :: rest) thread nm
        = Agent.process_tool_calls env rest
            (thread.add_message (Agent.process_tool_call env tc).1 0)
            (nm ++ [thread.assignSeq (Agent.process_tool_call env tc).1]) := by
      simp only [Agent.process_tool_calls, process_tool_call_state_eq, hbrk]
      simp
    obtain ⟨hb, msgs, hnm, hth, hf⟩ :=
      ih (thread.add_message (Agent.process_tool_call env tc).1 0)
        (nm ++ [thread.assignSeq (Agent.process_tool_call env tc).1])
        (fun tc' h' => hni tc' (List.mem_cons_of_mem tc h'))
    refine ⟨hstep ▸ hb,
      thread.assignSeq (Agent.process_tool_call env tc).1 :: msgs, ?_, ?_, ?_⟩
    · rw [hstep, hnm, List.append_assoc]
      rfl
    · rw [hstep, hth,
        add_message_messages_of_non_system _ _ _
          (by rw [process_tool_call_role]; intro h; cases h),
        List.append_assoc]
      rfl
    · refine List.Forall₂.cons ⟨?_, ?_, ?_⟩ hf
      · rw [assignSeq_role, process_tool_call_role]
      · rw [assignSeq_tool_call_id, process_tool_call_tcid]
      · rw [assignSeq_content, process_tool_call_content]

/-- Witness for `tool_exceptions_isolated`: the environment in which the
`ask_user` implementation raises `boom` while `get_info` succeeds, applied
to the two-call array `[ask_user, get_info]`. -/
theorem tool_exceptions_isolated_witness :
    (Agent.process_tool_calls envFirstRaises [exInterruptCall, exPlainCall]
        exThread []).2.2 = false ∧
    ∃ msgs,
      (Agent.process_tool_calls envFirstRaises [exInterruptCall, exPlainCall]
          exThread []).2.1 = [] ++ msgs ∧
      (Agent.process_tool_calls envFirstRaises [exInterruptCall, exPlainCall]
          exThread []).1.messages = exThread.messages ++ msgs ∧
      List.Forall₂ (fun (tc : ToolCall) (m : Message) =>
          m.role = Role.tool ∧ m.tool_call_id = some tc.id ∧
          m.content = (match envFirstRaises.impl tc with
            | Except.ok r => r.content
            | Except.error e => "Error executing tool: " ++ e))
        [exInterruptCall, exPlainCall] msgs :=
  tool_exceptions_isolated envFirstRaises [exInterruptCall, exPlainCall]
    exThread [] (by intro tc htc; fin_cases htc <;> rfl)

/-- Claim C8 counterexample: in a turn whose assistant message carries the
two tool calls `[ask_user, get_info]` with `ask_user` registered as an
interrupt tool, only one tool message follows the assistant message — the
ids of the tool messages are `[c1]`, not the full id set `[c1, c2]` of the
assistant's `tool_calls` array. -/
theorem tool_messages_not_full_id_set_on_interrupt :
    ((Agent.go envInterrupt oraclePairCall 10 0 "sp" exThread).2.1.map
        (fun m => (m.role, m.tool_call_id)))
      = [(Role.assistant, none), (Role.tool, some "c1")] ∧
    ((Agent.go envInterrupt oraclePairCall 10 0 "sp" exThread).2.1.head?.map
        (fun m => m.tool_calls)) = some (some [exInterruptCall, exPlainCall]) ∧
    [some "c1"]
      ≠ [exInterruptCall, exPlainCall].map (fun tc => (some tc.id : Option String)) := by
  refine ⟨?_, ?_, ?_⟩
  · rfl
  · rfl
  · decide

/-- Claim C8 (amended): the tool messages appended by the dispatch loop
follow the assistant's `tool_calls` array in array order, but answer only a
prefix of it — dispatch stops at the first interrupt tool, leaving later
calls unanswered.  When no dispatched call is an interrupt tool, the prefix
is the whole array, so the ids are then exactly the array's ids in order. -/
theorem tool_messages_answer_call_prefix_in_order (env : ToolEnv)
    (tcs : List ToolCall) (thread : Thread) (nm : List Message) :
    ∃ k msgs,
      k ≤ tcs.length ∧
      (Agent.process_tool_calls env tcs thread nm).1.messages
        = thread.messages ++ msgs ∧
      (Agent.process_tool_calls env tcs thread nm).2.1 = nm ++ msgs ∧
      msgs.map (fun m => m.tool_call_id)
        = (tcs.take k).map (fun tc => some tc.id) ∧
      (∀ m ∈ msgs, m.role = Role.tool) ∧
      ((∀ tc ∈ tcs, interruptCheck (env.attrs tc.name) = false) → k = tcs.length) := by
  induction tcs generalizing thread nm with
  | nil =>
    refine ⟨0, [], Nat.le_refl 0, by simp [Agent.process_tool_calls],
      by simp [Agent.process_tool_calls], rfl, ?_, fun _ => rfl⟩
    intro m hm
    cases hm
  | cons tc rest ih =>
    by_cases hbrk : (Agent.process_tool_call env tc).2 = true
    · have hstep : Agent.process_tool_calls env (tc :: rest) thread nm
          = (thread.add_message (Agent.process_tool_call env tc).1 0,
             nm ++ [thread.assignSeq (Agent.process_tool_call env tc).1], true) := by
        simp only [Agent.process_tool_calls, process_tool_call_state_eq, hbrk]
        simp
      refine ⟨1, [thread.assignSeq (Agent.process_tool_call env tc).1],
        by simp, ?_, ?_, ?_, ?_, ?_⟩
      · rw [hstep]
        exact add_message_messages_of_non_system _ _ _
          (by rw [process_tool_call_role]; intro h; cases h)
      · rw [hstep]
      · simp [assignSeq_tool_call_id, process_tool_call_tcid, List.take]
      · intro m hm
        rcases List.mem_singleton.mp hm with rfl
        rw [assignSeq_role, process_tool_call_role]
      · intro hall
        exfalso
        have := hall tc (List.mem_cons_self _ _)
        rw [process_tool_call_snd] at hbrk
        rw [this] at hbrk
        cases hbrk
    · have hbrk' : (Agent.process_tool_call env tc).2 = false :=
        Bool.eq_false_iff.mpr hbrk
      have hstep : Agent.process_tool_calls env (tc :: rest) thread nm
          = Agent.process_tool_calls env rest
              (thread.add_message (Agent.process_tool_call env tc).1 0)
              (nm ++ [thread.assignSeq (Agent.process_tool_call env tc).1]) := by
        simp only [Agent.process_tool_calls, process_tool_call_state_eq, hbrk']
        simp
      obtain ⟨k, msgs, hk, hth, hnm, hids, hroles, hfull⟩ :=
        ih (thread.add_message (Agent.process_tool_call env tc).1 0)
          (nm ++ [thread.assignSeq (Agent.process_tool_call env tc).1])
      refine ⟨k + 1, thread.assignSeq (Agent.process_tool_call env tc).1 :: msgs,
        by simpa using Nat.succ_le_succ hk, ?_, ?_, ?_, ?_, ?_⟩
      · rw [hstep, hth,
          add_message_messages_of_non_system _ _ _
            (by rw [process_tool_call_role]; intro h; cases h),
          List.append_assoc]
        rfl
      · rw [hstep, hnm, List.append_assoc]
        rfl
      · simp only [List.map_cons, List.take, hids]
        rw [assignSeq_tool_call_id, process_tool_call_tcid]
      · intro m hm
        rcases List.mem_cons.mp hm with rfl | hm
        · rw [assignSeq_role, process_tool_call_role]
        · exact hroles m hm
      · intro hall
        have := hfull (fun tc' h' => hall tc' (List.mem_cons_of_mem tc h'))
        simp [this]

/-- Witness for `tool_messages_answer_call_prefix_in_order` at the
no-attribute environment and the two-call array. -/
theorem tool_messages_answer_call_prefix_in_order_witness :
    ∃ k msgs,
      k ≤ [exInterruptCall, exPlainCall].length ∧
      (Agent.process_tool_calls envPlain [exInterruptCall, exPlainCall]
          exThread []).1.messages = exThread.messages ++ msgs ∧
      (Agent.process_tool_calls envPlain [exInterruptCall, exPlainCall]
          exThread []).2.1 = [] ++ msgs ∧
      msgs.map (fun m => m.tool_call_id)
        = ([exInterruptCall, exPlainCall].take k).map (fun tc => some tc.id) ∧
      (∀ m ∈ msgs, m.role = Role.tool) ∧
      ((∀ tc ∈ [exInterruptCall, exPlainCall],
          interruptCheck (envPlain.attrs tc.name) = false)
        → k = [exInterruptCall, exPlainCall].length) :=
  tool_messages_answer_call_prefix_in_order envPlain [exInterruptCall, exPlainCall]
    exThread []

/-- The dispatch loop applied to a call array whose first interrupt tool is
`tc` (all of `pre` non-interrupt): every call of `pre` and then `tc` get
their tool messages in order, the loop reports `should_break = true`, and
the calls after `tc` are not dispatched. -/
theorem process_tool_calls_break_at_interrupt (env : ToolEnv)
    (pre post : List ToolCall) (tc : ToolCall) (thread : Thread) (nm : List Message)
    (hpre : ∀ x ∈ pre, interruptCheck (env.attrs x.name) = false)
    (hint : interruptCheck (env.attrs tc.name) = true) :
    (Agent.process_tool_calls env (pre ++ tc :: post) thread nm).2.2 = true ∧
    ∃ msgs,
      (Agent.process_tool_calls env (pre ++ tc :: post) thread nm).2.1 = nm ++ msgs ∧
      (Agent.process_tool_calls env (pre ++ tc :: post) thread nm).1.messages
        = thread.messages ++ msgs ∧
      msgs.map (fun m => m.tool_call_id)
        = (pre ++ [tc]).map (fun x => some x.id) ∧
      (∀ m ∈ msgs, m.role = Role.tool) := by
  induction pre generalizing thread nm with
  | nil =>
    have hbrk : (Agent.process_tool_call env tc).2 = true := by
      rw [process_tool_call_snd]; exact hint
    have hstep : Agent.process_tool_calls env ([] ++ tc :: post) thread nm
        = (thread.add_message (Agent.process_tool_call env tc).1 0,
           nm ++ [thread.assignSeq (Agent.process_tool_call env tc).1], true) := by
      simp only [List.nil_append, Agent.process_tool_calls,
        process_tool_call_state_eq, hbrk]
      simp
    refine ⟨by rw [hstep], [thread.assignSeq (Agent.process_tool_call env tc).1],
      by rw [hstep], ?_, ?_, ?_⟩
    · rw [hstep]
      exact add_message_messages_of_non_system _ _ _
        (by rw [process_tool_call_role]; intro h; cases h)
    · simp [assignSeq_tool_call_id, process_tool_call_tcid]
    · intro m hm
      rcases List.mem_singleton.mp hm with rfl
      rw [assignSeq_role, process_tool_call_role]
  | cons x rest ih =>
    have hx : (Agent.process_tool_call env x).2 = false := by
      rw [process_tool_call_snd]; exact hpre x (List.mem_cons_self _ _)
    have hstep : Agent.process_tool_calls env ((x :: rest) ++ tc :: post) thread nm
        = Agent.process_tool_calls env (rest ++ tc :: post)
            (thread.add_message (Agent.process_tool_call env x).1 0)
            (nm ++ [thread.assignSeq (Agent.process_tool_call env x).1]) := by
      simp only [List.cons_append, Agent.process_tool_calls,
        process_tool_call_state_eq, hx]
      simp
    obtain ⟨hb, msgs, hnm, hth, hids, hroles⟩ :=
      ih (thread.add_message (Agent.process_tool_call env x).1 0)
        (nm ++ [thread.assignSeq (Agent.process_tool_call env x).1])
        (fun y hy => hpre y (List.mem_cons_of_mem x hy))
    refine ⟨by rw [hstep]; exact hb,
      thread.assignSeq (Agent.process_tool_call env x).1 :: msgs, ?_, ?_, ?_, ?_⟩
    · rw [hstep, hnm, List.append_assoc]
      rfl
    · rw [hstep, hth,
        add_message_messages_of_non_system _ _ _
          (by rw [process_tool_call_role]; intro h; cases h),
        List.append_assoc]
      rfl
    · simp only [List.cons_append, List.map_cons, hids]
      rw [assignSeq_tool_call_id, process_tool_call_tcid]
    · intro m hm
      rcases List.mem_cons.mp hm with rfl | hm
      · rw [assignSeq_role, process_tool_call_role]
      · exact hroles m hm

/-- Claim C2: whenever a completion of a turn requests tool calls whose
first interrupt-attributed tool is `tc`, that iteration is the last one:
the loop exits right after `tc`'s tool message with the iteration count
unchanged and exactly one more LLM call made.  In particular (second part),
a single-call turn whose only call is an interrupt tool returns
`new_messages` exactly `[assistant_with_tool_calls, tool_message]` after
exactly one LLM call. -/
theorem interrupt_tool_ends_turn :
    (∀ (env : ToolEnv) (oracle : Nat → LLMResponse) (maxIter f iter : Nat)
        (thread : Thread) (nm : List Message) (calls : Nat)
        (pre post : List ToolCall) (tc : ToolCall),
      iter < maxIter →
      (oracle calls).tool_calls = pre ++ tc :: post →
      (∀ x ∈ pre, interruptCheck (env.attrs x.name) = false) →
      interruptCheck (env.attrs tc.name) = true →
      (Agent.goLoop env oracle maxIter (f + 1) iter thread nm calls).2.2.1 = iter ∧
      (Agent.goLoop env oracle maxIter (f + 1) iter thread nm calls).2.2.2 = calls + 1 ∧
      ∃ am tmsgs,
        (Agent.goLoop env oracle maxIter (f + 1) iter thread nm calls).2.1
          = nm ++ am :: tmsgs ∧
        am.role = Role.assistant ∧
        am.tool_calls = some (pre ++ tc :: post) ∧
        tmsgs.map (fun m => m.tool_call_id) = (pre ++ [tc]).map (fun x => some x.id) ∧
        (∀ m ∈ tmsgs, m.role = Role.tool)) ∧
    (∀ (env : ToolEnv) (oracle : Nat → LLMResponse) (maxIter iter : Nat)
        (sp : String) (thread : Thread) (tc : ToolCall),
      iter < maxIter →
      (oracle 0).tool_calls = [tc] →
      interruptCheck (env.attrs tc.name) = true →
      ∃ am tm,
        (Agent.go env oracle maxIter iter sp thread).2.1 = [am, tm] ∧
        am.role = Role.assistant ∧
        am.content = (oracle 0).content ∧
        am.tool_calls = some [tc] ∧
        tm.role = Role.tool ∧
        tm.tool_call_id = some tc.id ∧
        (Agent.go env oracle maxIter iter sp thread).2.2 = 1) := by
  constructor
  · intro env oracle maxIter f iter thread nm calls pre post tc hlt hresp hpre hint
    have hne : (pre ++ tc :: post).isEmpty = false := by cases pre <;> rfl
    obtain ⟨hb, msgs, hnm, hth, hids, hroles⟩ :=
      process_tool_calls_break_at_interrupt env pre post tc
        (thread.add_message
          { role := Role.assistant, content := (oracle calls).content,
            tool_calls := some (pre ++ tc :: post) } 0)
        (nm ++ [thread.assignSeq
          { role := Role.assistant, content := (oracle calls).content,
            tool_calls := some (pre ++ tc :: post) }]) hpre hint
    have hloop : Agent.goLoop env oracle maxIter (f + 1) iter thread nm calls
        = ((Agent.process_tool_calls env (pre ++ tc :: post)
              (thread.add_message
                { role := Role.assistant, content := (oracle calls).content,
                  tool_calls := some (pre ++ tc :: post) } 0)
              (nm ++ [thread.assignSeq
                { role := Role.assistant, content := (oracle calls).content,
                  tool_calls := some (pre ++ tc :: post) }])).1,
           (Agent.process_tool_calls env (pre ++ tc :: post)
              (thread.add_message
                { role := Role.assistant, content := (oracle calls).content,
                  tool_calls := some (pre ++ tc :: post) } 0)
              (nm ++ [thread.assignSeq
                { role := Role.assistant, content := (oracle calls).content,
                  tool_calls := some (pre ++ tc :: post) }])).2.1,
           iter, calls + 1) := by
      simp only [Agent.goLoop, if_pos hlt, hresp, hne, Bool.not_false, Bool.or_true,
        if_true, Bool.not_true, Bool.false_eq_true, if_false, List.nil_append]
      simp [hb]
    refine ⟨by rw [hloop], by rw [hloop],
      thread.assignSeq
        { role := Role.assistant, content := (oracle calls).content,
          tool_calls := some (pre ++ tc :: post) }, msgs, ?_, ?_, ?_, hids, hroles⟩
    · rw [hloop, hnm, List.append_assoc]
      rfl
    · rw [assignSeq_role]
    · rw [assignSeq_tool_calls]
  · intro env oracle maxIter iter sp thread tc hlt hresp hint
    have hnc : ¬ maxIter ≤ iter := Nat.not_le.mpr hlt
    obtain ⟨f, hf⟩ : ∃ f, maxIter - iter = f + 1 := ⟨maxIter - iter - 1, by omega⟩
    have hbrk : (Agent.process_tool_call env tc).2 = true := by
      rw [process_tool_call_snd]; exact hint
    have hloop : Agent.goLoop env oracle maxIter (maxIter - iter) iter
        (ensureSystemPrompt thread sp) [] 0
        = (((ensureSystemPrompt thread sp).add_message
              { role := Role.assistant, content := (oracle 0).content,
                tool_calls := some (oracle 0).tool_calls } 0).add_message
              (Agent.process_tool_call env tc).1 0,
           [(ensureSystemPrompt thread sp).assignSeq
              { role := Role.assistant, content := (oracle 0).content,
                tool_calls := some (oracle 0).tool_calls },
            ((ensureSystemPrompt thread sp).add_message
              { role := Role.assistant, content := (oracle 0).content,
                tool_calls := some (oracle 0).tool_calls } 0).assignSeq
              (Agent.process_tool_call env tc).1],
           iter, 1) := by
      rw [hf]
      simp only [Agent.goLoop, if_pos hlt, hresp]
      simp only [List.isEmpty_cons, Bool.not_false, Bool.or_true, if_true, Bool.not_true,
        Bool.false_eq_true, if_false, List.nil_append]
      simp only [Agent.process_tool_calls, process_tool_call_state_eq, hbrk]
      simp [hresp]
    refine ⟨(ensureSystemPrompt thread sp).assignSeq
        { role := Role.assistant, content := (oracle 0).content,
          tool_calls := some (oracle 0).tool_calls },
      ((ensureSystemPrompt thread sp).add_message
        { role := Role.assistant, content := (oracle 0).content,
          tool_calls := some (oracle 0).tool_calls } 0).assignSeq
        (Agent.process_tool_call env tc).1, ?_, ?_, ?_, ?_, ?_, ?_, ?_⟩
    · unfold Agent.go
      rw [if_neg hnc, hloop]
      simp only [if_neg hnc]
      rw [List.filter_cons, List.filter_cons]
      simp [assignSeq_role, process_tool_call_role]
    · rw [assignSeq_role]
    · rw [assignSeq_content]
    · rw [assignSeq_tool_calls, hresp]
    · rw [assignSeq_role, process_tool_call_role]
    · rw [assignSeq_tool_call_id, process_tool_call_tcid]
    · unfold Agent.go
      rw [if_neg hnc, hloop]

/-- Witness for `interrupt_tool_ends_turn`: part one at the two-call array
`[ask_user, get_info]` with `ask_user` the interrupt tool, part two at the
single-call interrupt turn. -/
theorem interrupt_tool_ends_turn_witness :
    ((Agent.goLoop envInterrupt oraclePairCall 10 (9 + 1) 0 exThread [] 0).2.2.1 = 0 ∧
      (Agent.goLoop envInterrupt oraclePairCall 10 (9 + 1) 0 exThread [] 0).2.2.2 = 0 + 1 ∧
      ∃ am tmsgs,
        (Agent.goLoop envInterrupt oraclePairCall 10 (9 + 1) 0 exThread [] 0).2.1
          = [] ++ am :: tmsgs ∧
        am.role = Role.assistant ∧
        am.tool_calls = some ([] ++ exInterruptCall :: [exPlainCall]) ∧
        tmsgs.map (fun m => m.tool_call_id)
          = (([] : List ToolCall) ++ [exInterruptCall]).map (fun x => some x.id) ∧
        (∀ m ∈ tmsgs, m.role = Role.tool)) ∧
    (∃ am tm,
      (Agent.go envInterrupt oracleSingleCall 10 0 "sp" exThread).2.1 = [am, tm] ∧
      am.role = Role.assistant ∧
      am.content = (oracleSingleCall 0).content ∧
      am.tool_calls = some [exInterruptCall] ∧
      tm.role = Role.tool ∧
      tm.tool_call_id = some exInterruptCall.id ∧
      (Agent.go envInterrupt oracleSingleCall 10 0 "sp" exThread).2.2 = 1) :=
  ⟨interrupt_tool_ends_turn.1 envInterrupt oraclePairCall 10 9 0 exThread [] 0
      [] [exPlainCall] exInterruptCall (by decide) rfl
      (by intro x hx; cases hx) (by decide),
   interrupt_tool_ends_turn.2 envInterrupt oracleSingleCall 10 0 "sp" exThread
      exInterruptCall (by decide) rfl (by decide)⟩

/-- Claim C1: if `Agent.go` is entered with the iteration count already at
`max_tool_iterations`, or the loop exits with the iteration count at
`max_tool_iterations`, exactly one further assistant message is appended,
its content is exactly "Maximum tool iteration count reached. Stopping
further tool calls.", it is the last message (no tool messages follow it),
and in the entry case it is the only returned message and no LLM call is
made. -/
theorem agent_go_iteration_cap (env : ToolEnv) (oracle : Nat → LLMResponse)
    (maxIter iter : Nat) (sp : String) (thread : Thread) :
    (maxIter ≤ iter →
      ∃ m, (Agent.go env oracle maxIter iter sp thread).2.1 = [m] ∧
        m.role = Role.assistant ∧
        m.content
          = "Maximum tool iteration count reached. Stopping further tool calls." ∧
        (Agent.go env oracle maxIter iter sp thread).1.messages
          = (ensureSystemPrompt thread sp).messages ++ [m] ∧
        (Agent.go env oracle maxIter iter sp thread).2.2 = 0) ∧
    (iter < maxIter →
      maxIter ≤ (Agent.goLoop env oracle maxIter (maxIter - iter) iter
          (ensureSystemPrompt thread sp) [] 0).2.2.1 →
      ∃ m, (Agent.go env oracle maxIter iter sp thread).2.1
          = (Agent.goLoop env oracle maxIter (maxIter - iter) iter
              (ensureSystemPrompt thread sp) [] 0).2.1.filter
                (fun x => x.role ≠ Role.user) ++ [m] ∧
        m.role = Role.assistant ∧
        m.content
          = "Maximum tool iteration count reached. Stopping further tool calls." ∧
        (Agent.go env oracle maxIter iter sp thread).1.messages
          = (Agent.goLoop env oracle maxIter (maxIter - iter) iter
              (ensureSystemPrompt thread sp) [] 0).1.messages ++ [m]) := by
  constructor
  · intro h
    refine ⟨(ensureSystemPrompt thread sp).assignSeq capMessage, ?_, ?_, ?_, ?_, ?_⟩
    · unfold Agent.go
      rw [if_pos h]
      dsimp only
      rw [List.filter_cons]
      simp [assignSeq_role, capMessage]
    · rw [assignSeq_role]; rfl
    · rw [assignSeq_content]; rfl
    · unfold Agent.go
      rw [if_pos h]
      exact add_message_messages_of_non_system _ _ _ (by intro hx; cases hx)
    · unfold Agent.go
      rw [if_pos h]
  · intro h1 h2
    have hnc : ¬ maxIter ≤ iter := Nat.not_le.mpr h1
    refine ⟨(Agent.goLoop env oracle maxIter (maxIter - iter) iter
        (ensureSystemPrompt thread sp) [] 0).1.assignSeq capMessage, ?_, ?_, ?_, ?_⟩
    · unfold Agent.go
      rw [if_neg hnc]
      simp only [if_pos h2]
      rw [List.filter_append, List.filter_cons]
      simp [assignSeq_role, capMessage]
    · rw [assignSeq_role]; rfl
    · rw [assignSeq_content]; rfl
    · unfold Agent.go
      rw [if_neg hnc]
      simp only [if_pos h2]
      exact add_message_messages_of_non_system _ _ _ (by intro hx; cases hx)

/-- Witness for `agent_go_iteration_cap`: the entry-at-cap part at
`iter = maxIter = 3`, and the loop-exit part at `maxIter = 1` with an
oracle that always requests a (non-interrupt) tool call. -/
theorem agent_go_iteration_cap_witness :
    (∃ m, (Agent.go envPlain oracleSingleCall 3 3 "sp" exThread).2.1 = [m] ∧
      m.role = Role.assistant ∧
      m.content
        = "Maximum tool iteration count reached. Stopping further tool calls." ∧
      (Agent.go envPlain oracleSingleCall 3 3 "sp" exThread).1.messages
        = (ensureSystemPrompt exThread "sp").messages ++ [m] ∧
      (Agent.go envPlain oracleSingleCall 3 3 "sp" exThread).2.2 = 0) ∧
    (∃ m, (Agent.go envPlain oracleSingleCall 1 0 "sp" exThread).2.1
        = (Agent.goLoop envPlain oracleSingleCall 1 (1 - 0) 0
            (ensureSystemPrompt exThread "sp") [] 0).2.1.filter
              (fun x => x.role ≠ Role.user) ++ [m] ∧
      m.role = Role.assistant ∧
      m.content
        = "Maximum tool iteration count reached. Stopping further tool calls." ∧
      (Agent.go envPlain oracleSingleCall 1 0 "sp" exThread).1.messages
        = (Agent.goLoop envPlain oracleSingleCall 1 (1 - 0) 0
            (ensureSystemPrompt exThread "sp") [] 0).1.messages ++ [m]) :=
  ⟨(agent_go_iteration_cap envPlain oracleSingleCall 3 3 "sp" exThread).1
      (by decide),
   (agent_go_iteration_cap envPlain oracleSingleCall 1 0 "sp" exThread).2
      (by decide) (by decide)⟩

/-- Witness for `sql_save_reassigns_sequences` at a concrete three-message
list (user, system, user — in-memory sequences unset). -/
theorem sql_save_reassigns_sequences_witness :
    (∀ r ∈ SQLBackend.saveRecords [exUserMessage, exSystemMessage, exUserMessage2],
        r.role = Role.system → r.sequence = 0) ∧
    ((SQLBackend.saveRecords [exUserMessage, exSystemMessage, exUserMessage2]).filter
        (fun r => ¬ r.role = Role.system)).map (fun r => r.sequence)
      = (List.range ([exUserMessage, exSystemMessage, exUserMessage2].filter
          (fun m => ¬ m.role = Role.system)).length).map (fun i : Nat => (i : Int) + 1) ∧
    List.Forall₂ (fun (m : Message) (r : MessageRecord) =>
        r.role = m.role ∧ r.content = m.content ∧ r.name = m.name ∧
        r.tool_call_id = m.tool_call_id ∧ r.tool_calls = m.tool_calls ∧
        r.attributes = m.attributes ∧ r.source = m.source ∧ r.metrics = m.metrics)
      ([exUserMessage, exSystemMessage, exUserMessage2].filter
        (fun m => ¬ m.role = Role.system))
      ((SQLBackend.saveRecords [exUserMessage, exSystemMessage, exUserMessage2]).filter
        (fun r => ¬ r.role = Role.system)) ∧
    List.Forall₂ (fun (_ : Message) (r : MessageRecord) =>
        r.sequence = 0 ∧ r.role = Role.system)
      ([exUserMessage, exSystemMessage, exUserMessage2].filter
        (fun m => m.role = Role.system))
      ((SQLBackend.saveRecords [exUserMessage, exSystemMessage, exUserMessage2]).filter
        (fun r => r.role = Role.system)) :=
  sql_save_reassigns_sequences [exUserMessage, exSystemMessage, exUserMessage2]
